import Mathlib

/-!
Verification of the consumption-side pipeline of `typed-pubsub`
(`src/handler.ts`, `src/utils/should-drop-event.ts`, `src/constants.ts`).

The TypeScript code is shallowly embedded:
- JS `Promise` results of the user handler and of the store operations are
  values of `Except Exn _` (`Except.error` = thrown / rejected promise);
- the pipeline body of `createHandlerFactory` (handler.ts lines 63-105)
  is the pure function `processEvent`, which additionally records the
  trace of externally visible steps it performs (`Step`);
- JS timestamps are `Int` milliseconds; `Date.parse` of an unparseable
  `event.time` yields `NaN`, and every `NaN` comparison is false, which is
  embedded as `time : Option Int` with the `none` branch not dropping;
- `Date.now()` is a read of the ambient global clock; it is embedded as an
  explicit extra argument `now` carrying the clock value at the moment of
  the read (the TypeScript signature of `shouldDropEvent` does not take it).
-/

set_option autoImplicit false

/-- A JS exception value: `missingKey` is what `got` from get-or-throw
throws for an absent key; `thrown` is any exception of user-supplied code
(handler, store operations). -/
inductive Exn where
  | missingKey (key : String)
  | thrown (tag : String)
  deriving DecidableEq, Repr

/-- The delivered Pub/Sub CloudEvent, restricted to the fields the pipeline
reads: `id` (absent on older/malformed deliveries), `time` (already passed
through `Date.parse`; `none` embeds an unparseable timestamp, i.e. `NaN`),
and `json` for `event.data.message.json`. -/
structure CloudEvent (Raw : Type) where
  id : Option String
  time : Option Int
  json : Raw
  deriving DecidableEq, Repr

/-- JS truthiness of `event.id`: `undefined` and the empty string are falsy.
Returns the id exactly when `event.id` is truthy. -/
def truthyId : Option String → Option String
  | none => none
  | some s => if s = "" then none else some s

/-- JS truthiness of an optional boolean option field (`undefined` is falsy). -/
def jsBool : Option Bool → Bool
  | none => false
  | some b => b

/-- The function `shouldDropEvent` from `src/utils/should-drop-event.ts`.
`now` is the value of the hidden `Date.now()` read performed inside the
function body; the TypeScript parameters are only `event` and
`maxAgeMinutes`. An event with an unparseable `time` gives
`eventAge = NaN`, and `NaN > maxAgeMs` is false, so it is not dropped. -/
def shouldDropEvent {Raw : Type} (event : CloudEvent Raw)
    (maxAgeMinutes : Option Int) (now : Int) : Bool :=
  match maxAgeMinutes with
  | none => false
  | some m =>
    match event.time with
    | none => false
    | some t =>
      let maxAgeMs := m * 60 * 1000
      let eventAge := now - t
      decide (eventAge > maxAgeMs)

/-- The caller-supplied event-marking (idempotency store) functions from
`src/types.ts`. -/
structure EventMarkingFunctions where
  isEventProcessed : String → Except Exn Bool
  markEventAsProcessed : String → Except Exn Unit

/-- Externally visible steps of one pipeline run, in the order performed:
the staleness check, the duplicate pre-check `isEventProcessed`, the zod
`safeParse` of the payload, the user handler invocation (with the payload
value the validator produced), and the `markEventAsProcessed` call. -/
inductive Step (Typed : Type) where
  | staleCheck
  | isProcessedCall (id : String)
  | validate
  | handlerCall (payload : Typed)
  | markCall (id : String)
  deriving DecidableEq, Repr

/-- Position of each action in the pipeline's fixed stage order. -/
def stageIdx {Typed : Type} : Step Typed → Nat
  | .staleCheck => 0
  | .isProcessedCall _ => 1
  | .validate => 2
  | .handlerCall _ => 3
  | .markCall _ => 4

/-- A run's normal (acknowledged) terminal outcomes, one per `return` path
of the async body in handler.ts: dropped for age, dropped as a confirmed
duplicate, dropped after a failed validation (carrying the logged zod
error), or processed. -/
inductive Outcome where
  | droppedStale
  | droppedDuplicate
  | droppedInvalid (error : String)
  | processed
  deriving DecidableEq, Repr

/-- handler.ts lines 87-105: everything after the duplicate pre-check.
`got schemas topic` throws `missingKey` when the topic has no schema;
otherwise `safeParse` runs, an invalid payload is logged and acknowledged,
and a valid payload is passed to the user handler, after which the event is
marked when `canMarkEvents && event.id`. `pre` is the trace accumulated by
the earlier stages. -/
def validateAndRun {Raw Typed : Type}
    (schemas : String → Option (Raw → Except String Typed))
    (topic : String)
    (handler : Typed → Except Exn Unit)
    (eventMarkingFunctions : Option EventMarkingFunctions)
    (canMarkEvents : Bool)
    (event : CloudEvent Raw)
    (pre : List (Step Typed)) :
    List (Step Typed) × Except Exn Outcome :=
  match schemas topic with
  | none => (pre, .error (.missingKey topic))
  | some schema =>
    match schema event.json with
    | .error zodError =>
      (pre ++ [.validate], .ok (.droppedInvalid zodError))
    | .ok payload =>
      match handler payload with
      | .error e => (pre ++ [.validate, .handlerCall payload], .error e)
      | .ok _ =>
        match canMarkEvents, truthyId event.id, eventMarkingFunctions with
        | true, some eid, some fns =>
          match fns.markEventAsProcessed eid with
          | .error e =>
            (pre ++ [.validate, .handlerCall payload, .markCall eid], .error e)
          | .ok _ =>
            (pre ++ [.validate, .handlerCall payload, .markCall eid],
              .ok .processed)
        | _, _, _ =>
          (pre ++ [.validate, .handlerCall payload], .ok .processed)

/-- The async event body of `createHandlerFactory` (handler.ts lines
63-105): staleness check, then — when `canMarkEvents && event.id` — the
duplicate pre-check (a confirmed duplicate is logged and acknowledged, a
store rejection propagates), then schema lookup / validation / handler /
mark via `validateAndRun`. The returned list is the trace of steps
performed, the `Except` the JS completion (normal return vs thrown). -/
def processEvent {Raw Typed : Type}
    (schemas : String → Option (Raw → Except String Typed))
    (topic : String)
    (handler : Typed → Except Exn Unit)
    (eventMarkingFunctions : Option EventMarkingFunctions)
    (markEvent : Bool)
    (retryMaxAgeMinutes : Option Int)
    (event : CloudEvent Raw)
    (now : Int) :
    List (Step Typed) × Except Exn Outcome :=
  let canMarkEvents := markEvent && eventMarkingFunctions.isSome
  if shouldDropEvent event retryMaxAgeMinutes now then
    ([.staleCheck], .ok .droppedStale)
  else
    match canMarkEvents, truthyId event.id, eventMarkingFunctions with
    | true, some eid, some fns =>
      match fns.isEventProcessed eid with
      | .error e => ([.staleCheck, .isProcessedCall eid], .error e)
      | .ok true => ([.staleCheck, .isProcessedCall eid], .ok .droppedDuplicate)
      | .ok false =>
        validateAndRun schemas topic handler eventMarkingFunctions
          canMarkEvents event [.staleCheck, .isProcessedCall eid]
    | _, _, _ =>
      validateAndRun schemas topic handler eventMarkingFunctions
        canMarkEvents event [.staleCheck]

/-- The per-handler options object (`HandlerOptions` in `src/types.ts`,
restricted to the fields `defaultHandlerOptions` sets and handler.ts
destructures). Every field is optional; `none` embeds a JS property that is
absent or `undefined` (both read back as `undefined`). -/
structure HandlerOptions where
  retry : Option Bool := none
  retryMaxAgeMinutes : Option Int := none
  memory : Option String := none
  cpu : Option Int := none
  timeoutSeconds : Option Int := none
  maxInstances : Option Int := none
  markEvent : Option Bool := none
  vpcConnector : Option String := none
  deriving DecidableEq, Repr

/-- The object `defaultHandlerOptions` from `src/constants.ts` (`retryMaxAgeMinutes`
and `vpcConnector` are explicitly `undefined` there). -/
def defaultHandlerOptions : HandlerOptions :=
  { retry := some true
    retryMaxAgeMinutes := none
    memory := some "512MiB"
    cpu := some 1
    timeoutSeconds := some 20
    maxInstances := some 250
    markEvent := some false
    vpcConnector := none }

/-- The options object with no own properties (`options = {}`). -/
def emptyHandlerOptions : HandlerOptions := {}

/-- The spread merge `{ ...defaultOptions, ...options }` of handler.ts
lines 45-48: field-wise, a property present on `options` wins, otherwise
the default is kept. -/
def mergeOptions (defaultOptions options : HandlerOptions) : HandlerOptions :=
  { retry := options.retry <|> defaultOptions.retry
    retryMaxAgeMinutes :=
      options.retryMaxAgeMinutes <|> defaultOptions.retryMaxAgeMinutes
    memory := options.memory <|> defaultOptions.memory
    cpu := options.cpu <|> defaultOptions.cpu
    timeoutSeconds := options.timeoutSeconds <|> defaultOptions.timeoutSeconds
    maxInstances := options.maxInstances <|> defaultOptions.maxInstances
    markEvent := options.markEvent <|> defaultOptions.markEvent
    vpcConnector := options.vpcConnector <|> defaultOptions.vpcConnector }

/-- One registered handler: the effective options computed by the merge at
registration time, and the event body closed over them. -/
structure Registration (Raw Typed : Type) where
  effectiveOptions : HandlerOptions
  run : CloudEvent Raw → Int → List (Step Typed) × Except Exn Outcome

/-- The registration step of `createHandlerFactory` (handler.ts lines
29-62): merge the options once, compute `canMarkEvents`-relevant fields,
and return the event body closed over the merged values. -/
def createHandler {Raw Typed : Type}
    (schemas : String → Option (Raw → Except String Typed))
    (eventMarkingFunctions : Option EventMarkingFunctions)
    (defaultOptions : HandlerOptions)
    (topic : String)
    (handler : Typed → Except Exn Unit)
    (options : HandlerOptions) :
    Registration Raw Typed :=
  let merged := mergeOptions defaultOptions options
  { effectiveOptions := merged
    run := fun event now =>
      processEvent schemas topic handler eventMarkingFunctions
        (jsBool merged.markEvent) merged.retryMaxAgeMinutes event now }

/-! Concrete fixtures used by witnesses and counterexamples. The schema for
topic `"test"` rejects the payload `0` and maps `n` to `n + 1` (so the
value the handler receives is the validator's output, not the raw input). -/

/-- Validator of topic `"test"`. -/
def valNat : Nat → Except String Nat := fun n =>
  if n = 0 then .error "invalid" else .ok (n + 1)

/-- A registry holding only topic `"test"`. -/
def schemasNat : String → Option (Nat → Except String Nat) := fun t =>
  if t = "test" then some valNat else none

/-- A user handler that always succeeds. -/
def handlerOk : Nat → Except Exn Unit := fun _ => .ok ()

/-- A user handler that always throws. -/
def handlerBoom : Nat → Except Exn Unit := fun _ => .error (.thrown "boom")

/-- A store that reports every event as already processed. -/
def fnsSeen : EventMarkingFunctions :=
  { isEventProcessed := fun _ => .ok true
    markEventAsProcessed := fun _ => .ok () }

/-- A store that reports every event as fresh and marks successfully. -/
def fnsFresh : EventMarkingFunctions :=
  { isEventProcessed := fun _ => .ok false
    markEventAsProcessed := fun _ => .ok () }

/-- A store whose duplicate pre-check rejects. -/
def fnsCheckFail : EventMarkingFunctions :=
  { isEventProcessed := fun _ => .error (.thrown "store down")
    markEventAsProcessed := fun _ => .ok () }

/-- An event with id `"e1"`, timestamp 0, valid payload `5`. -/
def evGood : CloudEvent Nat := { id := some "e1", time := some 0, json := 5 }

/-- An event with id `"e2"`, timestamp 0, invalid payload `0`. -/
def evBad : CloudEvent Nat := { id := some "e2", time := some 0, json := 0 }

/-- An id-less event with timestamp 0 and valid payload `7`. -/
def evNoId : CloudEvent Nat := { id := none, time := some 0, json := 7 }

/-- C4: an event is dropped for staleness iff `maxAgeMinutes` is configured,
the timestamp parses, and `now - timestamp` strictly exceeds
`maxAgeMinutes * 60000` ms; with `maxAgeMinutes` absent the filter returns
false, and an unparseable timestamp is treated as not stale. -/
theorem shouldDropEvent_iff {Raw : Type} (event : CloudEvent Raw)
    (maxAgeMinutes : Option Int) (now : Int) :
    (shouldDropEvent event maxAgeMinutes now = true ↔
      ∃ m t, maxAgeMinutes = some m ∧ event.time = some t ∧
        now - t > m * 60000) ∧
    (maxAgeMinutes = none → shouldDropEvent event maxAgeMinutes now = false) ∧
    (event.time = none → shouldDropEvent event maxAgeMinutes now = false) := by
  unfold shouldDropEvent
  rcases maxAgeMinutes with _ | m
  · simp
  · rcases ht : event.time with _ | t
    · simp [ht]
    · simp [ht]
      omega

/-- Witness for C4 at a concrete stale input. -/
theorem shouldDropEvent_iff_witness :
    shouldDropEvent evGood (some 1) 100000 = true :=
  (shouldDropEvent_iff evGood (some 1) 100000).1.mpr
    ⟨1, 0, rfl, rfl, by decide⟩

/-- C9 counterexample: two calls of `shouldDropEvent` with identical values
for both of its TypeScript parameters (the event and `maxAgeMinutes`)
return different booleans, because the function reads `Date.now()` from the
global clock inside its body (embedded as the extra `now` argument) rather
than taking `now` as an injectable parameter. -/
theorem shouldDropEvent_hidden_clock :
    shouldDropEvent evNoId (some 1) 0 = false ∧
    shouldDropEvent evNoId (some 1) 100000 = true := by decide

/-- C9 (amended): the staleness decision is a deterministic function of the
event timestamp, `maxAgeMinutes`, and the value the global clock had when
`Date.now()` was read inside the function — it inspects no other part of
the event; but that clock value is a hidden read, not an injectable
parameter of the function. -/
theorem shouldDropEvent_deterministic {Raw Raw' : Type}
    (e : CloudEvent Raw) (e' : CloudEvent Raw')
    (maxAgeMinutes : Option Int) (now : Int)
    (h : e.time = e'.time) :
    shouldDropEvent e maxAgeMinutes now =
      shouldDropEvent e' maxAgeMinutes now := by
  unfold shouldDropEvent
  rw [h]

/-- Witness for the amended C9 at two concrete events sharing a timestamp. -/
theorem shouldDropEvent_deterministic_witness :
    shouldDropEvent evGood (some 1) 100000 =
      shouldDropEvent evBad (some 1) 100000 :=
  shouldDropEvent_deterministic evGood evBad (some 1) 100000 rfl

/-- C7: the configuration merge is field-wise with override-wins-if-present
semantics; merging any defaults with the empty override object yields
exactly the defaults; merging with a fully populated override object yields
exactly the overrides; and the merge is performed once at registration —
the registered event body is, for every event, the pipeline run at the
policy merged from the registration-time defaults and overrides. -/
theorem mergeOptions_spec {Raw Typed : Type}
    (schemas : String → Option (Raw → Except String Typed))
    (fns : Option EventMarkingFunctions)
    (topic : String) (hdl : Typed → Except Exn Unit) :
    (∀ d o : HandlerOptions, mergeOptions d o =
      { retry := o.retry <|> d.retry
        retryMaxAgeMinutes := o.retryMaxAgeMinutes <|> d.retryMaxAgeMinutes
        memory := o.memory <|> d.memory
        cpu := o.cpu <|> d.cpu
        timeoutSeconds := o.timeoutSeconds <|> d.timeoutSeconds
        maxInstances := o.maxInstances <|> d.maxInstances
        markEvent := o.markEvent <|> d.markEvent
        vpcConnector := o.vpcConnector <|> d.vpcConnector }) ∧
    (∀ d : HandlerOptions, mergeOptions d emptyHandlerOptions = d) ∧
    (∀ (d : HandlerOptions) (r : Bool) (rm : Int) (me : String)
        (c ts mi : Int) (mk : Bool) (v : String),
      mergeOptions d
          ⟨some r, some rm, some me, some c, some ts, some mi, some mk, some v⟩ =
        ⟨some r, some rm, some me, some c, some ts, some mi, some mk, some v⟩) ∧
    (∀ (d o : HandlerOptions) (event : CloudEvent Raw) (now : Int),
      (createHandler schemas fns d topic hdl o).run event now =
        processEvent schemas topic hdl fns
          (jsBool (mergeOptions d o).markEvent)
          (mergeOptions d o).retryMaxAgeMinutes event now) := by
  refine ⟨fun d o => rfl, fun d => ?_, fun d r rm me c ts mi mk v => rfl,
    fun d o event now => rfl⟩
  rcases d with ⟨r, rm, me, c, ts, mi, mk, v⟩
  rfl


/-- Exhaustive description of `validateAndRun`: one disjunct per return
path of handler.ts lines 87-105 (unknown topic, invalid payload, handler
throw, handler success with a mark call, handler success without one). -/
theorem validateAndRun_cases {Raw Typed : Type}
    (schemas : String → Option (Raw → Except String Typed))
    (topic : String) (hdl : Typed → Except Exn Unit)
    (fns : Option EventMarkingFunctions) (cm : Bool)
    (event : CloudEvent Raw) (pre : List (Step Typed)) :
    (schemas topic = none ∧
      validateAndRun schemas topic hdl fns cm event pre =
        (pre, .error (.missingKey topic))) ∨
    (∃ sch err, schemas topic = some sch ∧ sch event.json = .error err ∧
      validateAndRun schemas topic hdl fns cm event pre =
        (pre ++ [.validate], .ok (.droppedInvalid err))) ∨
    (∃ sch v e, schemas topic = some sch ∧ sch event.json = .ok v ∧
      hdl v = .error e ∧
      validateAndRun schemas topic hdl fns cm event pre =
        (pre ++ [.validate, .handlerCall v], .error e)) ∨
    (∃ sch v f eid, schemas topic = some sch ∧ sch event.json = .ok v ∧
      hdl v = .ok () ∧ cm = true ∧ truthyId event.id = some eid ∧
      fns = some f ∧
      ((∃ e, f.markEventAsProcessed eid = .error e ∧
          validateAndRun schemas topic hdl fns cm event pre =
            (pre ++ [.validate, .handlerCall v, .markCall eid], .error e)) ∨
        (f.markEventAsProcessed eid = .ok () ∧
          validateAndRun schemas topic hdl fns cm event pre =
            (pre ++ [.validate, .handlerCall v, .markCall eid],
              .ok .processed)))) ∨
    (∃ sch v, schemas topic = some sch ∧ sch event.json = .ok v ∧
      hdl v = .ok () ∧
      (cm = false ∨ truthyId event.id = none ∨ fns = none) ∧
      validateAndRun schemas topic hdl fns cm event pre =
        (pre ++ [.validate, .handlerCall v], .ok .processed)) := by
  unfold validateAndRun
  cases hs : schemas topic with
  | none => exact Or.inl ⟨rfl, rfl⟩
  | some sch =>
    dsimp only
    cases hp : sch event.json with
    | error err => exact Or.inr (Or.inl ⟨sch, err, rfl, hp, rfl⟩)
    | ok payload =>
      dsimp only
      cases hh : hdl payload with
      | error e =>
        exact Or.inr (Or.inr (Or.inl ⟨sch, payload, e, rfl, hp, hh, rfl⟩))
      | ok u =>
        dsimp only
        cases cm with
        | false =>
          exact Or.inr (Or.inr (Or.inr (Or.inr
            ⟨sch, payload, rfl, hp, hh, Or.inl rfl, rfl⟩)))
        | true =>
          cases hti : truthyId event.id with
          | none =>
            exact Or.inr (Or.inr (Or.inr (Or.inr
              ⟨sch, payload, rfl, hp, hh, Or.inr (Or.inl rfl), rfl⟩)))
          | some eid =>
            cases fns with
            | none =>
              exact Or.inr (Or.inr (Or.inr (Or.inr
                ⟨sch, payload, rfl, hp, hh, Or.inr (Or.inr rfl), rfl⟩)))
            | some f =>
              dsimp only
              cases hm : f.markEventAsProcessed eid with
              | error e =>
                exact Or.inr (Or.inr (Or.inr (Or.inl
                  ⟨sch, payload, f, eid, rfl, hp, hh, rfl, rfl, rfl,
                    Or.inl ⟨e, hm, rfl⟩⟩)))
              | ok w =>
                exact Or.inr (Or.inr (Or.inr (Or.inl
                  ⟨sch, payload, f, eid, rfl, hp, hh, rfl, rfl, rfl,
                    Or.inr ⟨hm, rfl⟩⟩)))

/-- Exhaustive description of `processEvent`: the stale drop, the three
outcomes of the duplicate pre-check when it runs, and the direct fall
through to `validateAndRun` when it does not. -/
theorem processEvent_cases {Raw Typed : Type}
    (schemas : String → Option (Raw → Except String Typed))
    (topic : String) (hdl : Typed → Except Exn Unit)
    (fns : Option EventMarkingFunctions) (markEvent : Bool)
    (m : Option Int) (event : CloudEvent Raw) (now : Int) :
    (shouldDropEvent event m now = true ∧
      processEvent schemas topic hdl fns markEvent m event now =
        ([.staleCheck], .ok .droppedStale)) ∨
    (shouldDropEvent event m now = false ∧
      ((∃ f eid, (markEvent && fns.isSome) = true ∧ fns = some f ∧
          truthyId event.id = some eid ∧
          ((∃ e, f.isEventProcessed eid = .error e ∧
              processEvent schemas topic hdl fns markEvent m event now =
                ([.staleCheck, .isProcessedCall eid], .error e)) ∨
           (f.isEventProcessed eid = .ok true ∧
              processEvent schemas topic hdl fns markEvent m event now =
                ([.staleCheck, .isProcessedCall eid], .ok .droppedDuplicate)) ∨
           (f.isEventProcessed eid = .ok false ∧
              processEvent schemas topic hdl fns markEvent m event now =
                validateAndRun schemas topic hdl fns (markEvent && fns.isSome)
                  event [.staleCheck, .isProcessedCall eid]))) ∨
       (((markEvent && fns.isSome) = false ∨ truthyId event.id = none) ∧
         processEvent schemas topic hdl fns markEvent m event now =
           validateAndRun schemas topic hdl fns (markEvent && fns.isSome)
             event [.staleCheck]))) := by
  unfold processEvent
  dsimp only
  split
  next hd => exact Or.inl ⟨hd, rfl⟩
  next hd =>
    rw [Bool.not_eq_true] at hd
    cases markEvent with
    | false => exact Or.inr ⟨hd, Or.inr ⟨Or.inl rfl, rfl⟩⟩
    | true =>
      cases fns with
      | none => exact Or.inr ⟨hd, Or.inr ⟨Or.inl rfl, rfl⟩⟩
      | some f =>
        cases hti : truthyId event.id with
        | none => exact Or.inr ⟨hd, Or.inr ⟨Or.inr rfl, rfl⟩⟩
        | some eid =>
          simp only [Option.isSome_some, Bool.and_true]
          cases hq : f.isEventProcessed eid with
          | error e =>
            exact Or.inr ⟨hd, Or.inl ⟨f, eid, True.intro, rfl, rfl,
              Or.inl ⟨e, hq, rfl⟩⟩⟩
          | ok b =>
            cases b with
            | true =>
              exact Or.inr ⟨hd, Or.inl ⟨f, eid, True.intro, rfl, rfl,
                Or.inr (Or.inl ⟨hq, rfl⟩)⟩⟩
            | false =>
              exact Or.inr ⟨hd, Or.inl ⟨f, eid, True.intro, rfl, rfl,
                Or.inr (Or.inr ⟨hq, rfl⟩)⟩⟩

/-- The trace of `validateAndRun` extends `pre` with steps of the
validation stage or later, in strict stage order. -/
theorem validateAndRun_trace_extends {Raw Typed : Type}
    (schemas : String → Option (Raw → Except String Typed))
    (topic : String) (hdl : Typed → Except Exn Unit)
    (fns : Option EventMarkingFunctions) (cm : Bool)
    (event : CloudEvent Raw) (pre : List (Step Typed)) :
    ∃ tail, (validateAndRun schemas topic hdl fns cm event pre).1 =
        pre ++ tail ∧
      List.Chain' (fun a b => stageIdx a < stageIdx b) tail ∧
      ∀ a ∈ tail, 2 ≤ stageIdx a := by
  rcases validateAndRun_cases schemas topic hdl fns cm event pre with
    ⟨hs, hv⟩ | ⟨sch, err, hs, hp, hv⟩ | ⟨sch, v, e, hs, hp, hh, hv⟩ |
    ⟨sch, v, f, eid, hs, hp, hh, hcm, hti, hfns, ⟨e, hm, hv⟩ | ⟨hm, hv⟩⟩ |
    ⟨sch, v, hs, hp, hh, hcond, hv⟩
  · exact ⟨[], by rw [hv]; simp⟩
  · exact ⟨[.validate], by rw [hv]; simp [stageIdx]⟩
  · exact ⟨[.validate, .handlerCall v], by rw [hv]; simp [stageIdx]⟩
  · exact ⟨[.validate, .handlerCall v, .markCall eid],
      by rw [hv]; simp [stageIdx]⟩
  · exact ⟨[.validate, .handlerCall v, .markCall eid],
      by rw [hv]; simp [stageIdx]⟩
  · exact ⟨[.validate, .handlerCall v], by rw [hv]; simp [stageIdx]⟩

/-- Steps of the staleness or duplicate stage are never added by
`validateAndRun`: they occur in its trace only through `pre`. -/
theorem validateAndRun_mem_low {Raw Typed : Type}
    (schemas : String → Option (Raw → Except String Typed))
    (topic : String) (hdl : Typed → Except Exn Unit)
    (fns : Option EventMarkingFunctions) (cm : Bool)
    (event : CloudEvent Raw) (pre : List (Step Typed))
    (a : Step Typed) (ha : stageIdx a ≤ 1) :
    a ∈ (validateAndRun schemas topic hdl fns cm event pre).1 ↔ a ∈ pre := by
  obtain ⟨tail, htr, hchain, hstage⟩ :=
    validateAndRun_trace_extends schemas topic hdl fns cm event pre
  rw [htr, List.mem_append]
  constructor
  · rintro (h | h)
    · exact h
    · exact absurd (hstage a h) (by omega)
  · exact Or.inl

/-- The handler-invocation step occurs in `validateAndRun`'s trace exactly
for the payload value the schema produced (or already in `pre`). -/
theorem validateAndRun_mem_handlerCall {Raw Typed : Type}
    (schemas : String → Option (Raw → Except String Typed))
    (topic : String) (hdl : Typed → Except Exn Unit)
    (fns : Option EventMarkingFunctions) (cm : Bool)
    (event : CloudEvent Raw) (pre : List (Step Typed)) (v : Typed) :
    Step.handlerCall v ∈ (validateAndRun schemas topic hdl fns cm event pre).1 ↔
      (Step.handlerCall v ∈ pre ∨
        ∃ sch, schemas topic = some sch ∧ sch event.json = .ok v) := by
  rcases validateAndRun_cases schemas topic hdl fns cm event pre with
    ⟨hs, hv⟩ | ⟨sch, err, hs, hp, hv⟩ | ⟨sch, v', e, hs, hp, hh, hv⟩ |
    ⟨sch, v', f, eid, hs, hp, hh, hcm, hti, hfns, ⟨e, hm, hv⟩ | ⟨hm, hv⟩⟩ |
    ⟨sch, v', hs, hp, hh, hcond, hv⟩
  · rw [hv]; simp [hs]
  · rw [hv]; simp [hs, hp]
  · rw [hv]; simp [hs, hp, eq_comm]
  · rw [hv]; simp [hs, hp, eq_comm]
  · rw [hv]; simp [hs, hp, eq_comm]
  · rw [hv]; simp [hs, hp, eq_comm]

/-- The mark step occurs in `validateAndRun`'s trace (beyond `pre`) exactly
when marking is enabled, the event id is truthy, and the handler succeeded
on the validated payload. -/
theorem validateAndRun_mem_markCall {Raw Typed : Type}
    (schemas : String → Option (Raw → Except String Typed))
    (topic : String) (hdl : Typed → Except Exn Unit)
    (fns : Option EventMarkingFunctions) (cm : Bool)
    (event : CloudEvent Raw) (pre : List (Step Typed)) (i : String) :
    Step.markCall i ∈ (validateAndRun schemas topic hdl fns cm event pre).1 ↔
      (Step.markCall i ∈ pre ∨
        (cm = true ∧ truthyId event.id = some i ∧ fns.isSome ∧
          ∃ sch v, schemas topic = some sch ∧ sch event.json = .ok v ∧
            hdl v = .ok ())) := by
  rcases validateAndRun_cases schemas topic hdl fns cm event pre with
    ⟨hs, hv⟩ | ⟨sch, err, hs, hp, hv⟩ | ⟨sch, v', e, hs, hp, hh, hv⟩ |
    ⟨sch, v', f, eid, hs, hp, hh, hcm, hti, hfns, ⟨e, hm, hv⟩ | ⟨hm, hv⟩⟩ |
    ⟨sch, v', hs, hp, hh, hcond, hv⟩
  · rw [hv]; simp [hs]
  · rw [hv]; simp [hs, hp]
  · rw [hv]; simp [hs, hp, hh]
  · rw [hv]; simp [hs, hp, hh, hcm, hti, hfns, eq_comm]
  · rw [hv]; simp [hs, hp, hh, hcm, hti, hfns, eq_comm]
  · rw [hv]
    rcases hcond with hcond | hcond | hcond <;> simp [hs, hp, hh, hcond]

/-- The validation step occurs in `validateAndRun`'s trace (beyond `pre`)
exactly when the topic has a schema: `safeParse` runs for every event that
reaches this stage of a known topic. -/
theorem validateAndRun_mem_validate {Raw Typed : Type}
    (schemas : String → Option (Raw → Except String Typed))
    (topic : String) (hdl : Typed → Except Exn Unit)
    (fns : Option EventMarkingFunctions) (cm : Bool)
    (event : CloudEvent Raw) (pre : List (Step Typed)) :
    Step.validate ∈ (validateAndRun schemas topic hdl fns cm event pre).1 ↔
      (Step.validate ∈ pre ∨ ∃ sch, schemas topic = some sch) := by
  rcases validateAndRun_cases schemas topic hdl fns cm event pre with
    ⟨hs, hv⟩ | ⟨sch, err, hs, hp, hv⟩ | ⟨sch, v', e, hs, hp, hh, hv⟩ |
    ⟨sch, v', f, eid, hs, hp, hh, hcm, hti, hfns, ⟨e, hm, hv⟩ | ⟨hm, hv⟩⟩ |
    ⟨sch, v', hs, hp, hh, hcond, hv⟩ <;> rw [hv]
  · simp [hs]
  · simp [hs]
  · simp [hs]
  · simp [hs]
  · simp [hs]
  · simp [hs]

/-- `validateAndRun` never yields the stale-drop or duplicate-drop outcome:
those belong to the earlier stages. -/
theorem validateAndRun_res_not_dropped {Raw Typed : Type}
    (schemas : String → Option (Raw → Except String Typed))
    (topic : String) (hdl : Typed → Except Exn Unit)
    (fns : Option EventMarkingFunctions) (cm : Bool)
    (event : CloudEvent Raw) (pre : List (Step Typed)) :
    (validateAndRun schemas topic hdl fns cm event pre).2 ≠
        .ok .droppedStale ∧
      (validateAndRun schemas topic hdl fns cm event pre).2 ≠
        .ok .droppedDuplicate := by
  rcases validateAndRun_cases schemas topic hdl fns cm event pre with
    ⟨hs, hv⟩ | ⟨sch, err, hs, hp, hv⟩ | ⟨sch, v', e, hs, hp, hh, hv⟩ |
    ⟨sch, v', f, eid, hs, hp, hh, hcm, hti, hfns, ⟨e, hm, hv⟩ | ⟨hm, hv⟩⟩ |
    ⟨sch, v', hs, hp, hh, hcond, hv⟩ <;> rw [hv] <;> exact ⟨by simp, by simp⟩

/-- If the already-performed steps `pre` are in stage order and belong to
the stale/duplicate stages, the whole `validateAndRun` trace is in stage
order. -/
theorem validateAndRun_trace_chain {Raw Typed : Type}
    (schemas : String → Option (Raw → Except String Typed))
    (topic : String) (hdl : Typed → Except Exn Unit)
    (fns : Option EventMarkingFunctions) (cm : Bool)
    (event : CloudEvent Raw) (pre : List (Step Typed))
    (hchain : List.Chain' (fun a b => stageIdx a < stageIdx b) pre)
    (hlow : ∀ a ∈ pre, stageIdx a ≤ 1) :
    List.Chain' (fun a b => stageIdx a < stageIdx b)
      (validateAndRun schemas topic hdl fns cm event pre).1 := by
  obtain ⟨tail, htr, htc, hstage⟩ :=
    validateAndRun_trace_extends schemas topic hdl fns cm event pre
  rw [htr, List.chain'_append]
  refine ⟨hchain, htc, fun x hx y hy => ?_⟩
  have h1 := hlow x (List.mem_of_mem_getLast? hx)
  have h2 := hstage y (List.mem_of_mem_head? hy)
  omega

/-- C1: the pipeline's stages run in the fixed order staleness check →
duplicate check → schema validation → handler invocation → mark; every
trace starts with the staleness check and is strictly stage-ordered, a
stale drop performs nothing beyond the staleness check, a confirmed
duplicate never reaches schema validation or the handler, and the handler
only ever receives a payload the topic's schema validated successfully. -/
theorem processEvent_stage_order {Raw Typed : Type}
    (schemas : String → Option (Raw → Except String Typed))
    (topic : String) (hdl : Typed → Except Exn Unit)
    (fns : Option EventMarkingFunctions) (markEvent : Bool)
    (m : Option Int) (event : CloudEvent Raw) (now : Int) :
    List.Chain' (fun a b => stageIdx a < stageIdx b)
      (processEvent schemas topic hdl fns markEvent m event now).1 ∧
    (processEvent schemas topic hdl fns markEvent m event now).1.head? =
      some Step.staleCheck ∧
    ((processEvent schemas topic hdl fns markEvent m event now).2 =
        .ok .droppedStale →
      (processEvent schemas topic hdl fns markEvent m event now).1 =
        [Step.staleCheck]) ∧
    ((processEvent schemas topic hdl fns markEvent m event now).2 =
        .ok .droppedDuplicate →
      Step.validate ∉
          (processEvent schemas topic hdl fns markEvent m event now).1 ∧
        ∀ v, Step.handlerCall v ∉
          (processEvent schemas topic hdl fns markEvent m event now).1) ∧
    (∀ v, Step.handlerCall v ∈
        (processEvent schemas topic hdl fns markEvent m event now).1 →
      ∃ sch, schemas topic = some sch ∧ sch event.json = .ok v) := by
  rcases processEvent_cases schemas topic hdl fns markEvent m event now with
    ⟨hd, hpe⟩ | ⟨hd, ⟨f, eid, hcm, hfns, hti,
      ⟨e, hq, hpe⟩ | ⟨hq, hpe⟩ | ⟨hq, hpe⟩⟩ | ⟨hcond, hpe⟩⟩
  · rw [hpe]; exact ⟨by simp, rfl, fun _ => rfl, by simp, by simp⟩
  · rw [hpe]; exact ⟨by simp [stageIdx], rfl, by simp, by simp, by simp⟩
  · rw [hpe]; exact ⟨by simp [stageIdx], rfl, by simp, by simp, by simp⟩
  · rw [hpe]
    obtain ⟨tail, htr, htc, hstage⟩ := validateAndRun_trace_extends schemas
      topic hdl fns (markEvent && fns.isSome) event
      [.staleCheck, .isProcessedCall eid]
    refine ⟨?_, ?_, ?_, ?_, ?_⟩
    · exact validateAndRun_trace_chain schemas topic hdl fns
        (markEvent && fns.isSome) event [.staleCheck, .isProcessedCall eid]
        (by simp [stageIdx]) (by simp [stageIdx])
    · rw [htr]; rfl
    · intro h
      exact absurd h (validateAndRun_res_not_dropped schemas topic hdl fns
        (markEvent && fns.isSome) event
        [.staleCheck, .isProcessedCall eid]).1
    · intro h
      exact absurd h (validateAndRun_res_not_dropped schemas topic hdl fns
        (markEvent && fns.isSome) event
        [.staleCheck, .isProcessedCall eid]).2
    · intro v hv
      rcases (validateAndRun_mem_handlerCall schemas topic hdl fns
          (markEvent && fns.isSome) event
          [.staleCheck, .isProcessedCall eid] v).mp hv with h | h
      · simp at h
      · exact h
  · rw [hpe]
    obtain ⟨tail, htr, htc, hstage⟩ := validateAndRun_trace_extends schemas
      topic hdl fns (markEvent && fns.isSome) event [.staleCheck]
    refine ⟨?_, ?_, ?_, ?_, ?_⟩
    · exact validateAndRun_trace_chain schemas topic hdl fns
        (markEvent && fns.isSome) event [.staleCheck]
        (by simp) (by simp [stageIdx])
    · rw [htr]; rfl
    · intro h
      exact absurd h (validateAndRun_res_not_dropped schemas topic hdl fns
        (markEvent && fns.isSome) event [.staleCheck]).1
    · intro h
      exact absurd h (validateAndRun_res_not_dropped schemas topic hdl fns
        (markEvent && fns.isSome) event [.staleCheck]).2
    · intro v hv
      rcases (validateAndRun_mem_handlerCall schemas topic hdl fns
          (markEvent && fns.isSome) event [.staleCheck] v).mp hv with h | h
      · simp at h
      · exact h

/-- In `validateAndRun` (given `pre` holds no handler or mark step): a mark
step implies a preceding successful handler invocation in the same trace,
and a handler exception propagates as the result with no mark step at all. -/
theorem validateAndRun_mark_facts {Raw Typed : Type}
    (schemas : String → Option (Raw → Except String Typed))
    (topic : String) (hdl : Typed → Except Exn Unit)
    (fns : Option EventMarkingFunctions) (cm : Bool)
    (event : CloudEvent Raw) (pre : List (Step Typed))
    (hnoh : ∀ v, Step.handlerCall v ∉ pre)
    (hnom : ∀ i, Step.markCall i ∉ pre) :
    (∀ i, Step.markCall i ∈ (validateAndRun schemas topic hdl fns cm event pre).1 →
      ∃ v, List.Sublist [Step.handlerCall v, Step.markCall i]
          (validateAndRun schemas topic hdl fns cm event pre).1 ∧
        hdl v = .ok ()) ∧
    (∀ v e, Step.handlerCall v ∈ (validateAndRun schemas topic hdl fns cm event pre).1 →
      hdl v = .error e →
      (validateAndRun schemas topic hdl fns cm event pre).2 = .error e ∧
        ∀ i, Step.markCall i ∉ (validateAndRun schemas topic hdl fns cm event pre).1) := by
  rcases validateAndRun_cases schemas topic hdl fns cm event pre with
    ⟨hs, hv⟩ | ⟨sch, err, hs, hp, hv⟩ | ⟨sch, v', e', hs, hp, hh, hv⟩ |
    ⟨sch, v', f, eid, hs, hp, hh, hcm, hti, hfns, ⟨e', hm, hv⟩ | ⟨hm, hv⟩⟩ |
    ⟨sch, v', hs, hp, hh, hcond, hv⟩ <;> rw [hv]
  · exact ⟨fun i hi => absurd hi (hnom i),
      fun v e hv' _ => absurd hv' (hnoh v)⟩
  · refine ⟨fun i hi => ?_, fun v e hv' _ => ?_⟩
    · simp at hi
      exact absurd hi (hnom i)
    · simp at hv'
      exact absurd hv' (hnoh v)
  · refine ⟨fun i hi => ?_, fun v e hv' hherr => ?_⟩
    · simp at hi
      exact absurd hi (hnom i)
    · simp at hv'
      rcases hv' with hv' | hv'
      · exact absurd hv' (hnoh v)
      · subst hv'
        rw [hh] at hherr
        simp only [Except.error.injEq] at hherr
        subst hherr
        refine ⟨rfl, fun i => ?_⟩
        simp [hnom i]
  · refine ⟨fun i hi => ?_, fun v e hv' hherr => ?_⟩
    · simp at hi
      rcases hi with hi | hi
      · exact absurd hi (hnom i)
      · subst hi
        refine ⟨v', ?_, hh⟩
        exact List.Sublist.trans
          (List.Sublist.cons Step.validate (List.Sublist.refl _))
          (List.sublist_append_right pre _)
    · simp at hv'
      rcases hv' with hv' | hv'
      · exact absurd hv' (hnoh v)
      · subst hv'
        rw [hh] at hherr
        exact absurd hherr (by simp)
  · refine ⟨fun i hi => ?_, fun v e hv' hherr => ?_⟩
    · simp at hi
      rcases hi with hi | hi
      · exact absurd hi (hnom i)
      · subst hi
        refine ⟨v', ?_, hh⟩
        exact List.Sublist.trans
          (List.Sublist.cons Step.validate (List.Sublist.refl _))
          (List.sublist_append_right pre _)
    · simp at hv'
      rcases hv' with hv' | hv'
      · exact absurd hv' (hnoh v)
      · subst hv'
        rw [hh] at hherr
        exact absurd hherr (by simp)
  · refine ⟨fun i hi => ?_, fun v e hv' hherr => ?_⟩
    · simp at hi
      exact absurd hi (hnom i)
    · simp at hv'
      rcases hv' with hv' | hv'
      · exact absurd hv' (hnoh v)
      · subst hv'
        rw [hh] at hherr
        exact absurd hherr (by simp)

/-- C3: the mark step runs only after the user handler's promise resolved
successfully — every mark step in a trace is preceded by a handler
invocation whose payload the handler accepted — and when the handler
throws, the exception propagates as the pipeline's result unswallowed and
no mark step occurs in that run. -/
theorem processEvent_mark_after_handler {Raw Typed : Type}
    (schemas : String → Option (Raw → Except String Typed))
    (topic : String) (hdl : Typed → Except Exn Unit)
    (fns : Option EventMarkingFunctions) (markEvent : Bool)
    (m : Option Int) (event : CloudEvent Raw) (now : Int) :
    (∀ i, Step.markCall i ∈
        (processEvent schemas topic hdl fns markEvent m event now).1 →
      ∃ v, List.Sublist [Step.handlerCall v, Step.markCall i]
          (processEvent schemas topic hdl fns markEvent m event now).1 ∧
        hdl v = .ok ()) ∧
    (∀ v e, Step.handlerCall v ∈
        (processEvent schemas topic hdl fns markEvent m event now).1 →
      hdl v = .error e →
      (processEvent schemas topic hdl fns markEvent m event now).2 =
          .error e ∧
        ∀ i, Step.markCall i ∉
          (processEvent schemas topic hdl fns markEvent m event now).1) := by
  rcases processEvent_cases schemas topic hdl fns markEvent m event now with
    ⟨hd, hpe⟩ | ⟨hd, ⟨f, eid, hcm, hfns, hti,
      ⟨e', hq, hpe⟩ | ⟨hq, hpe⟩ | ⟨hq, hpe⟩⟩ | ⟨hcond, hpe⟩⟩
  · rw [hpe]
    exact ⟨fun i hi => absurd hi (by simp),
      fun v e hv _ => absurd hv (by simp)⟩
  · rw [hpe]
    exact ⟨fun i hi => absurd hi (by simp),
      fun v e hv _ => absurd hv (by simp)⟩
  · rw [hpe]
    exact ⟨fun i hi => absurd hi (by simp),
      fun v e hv _ => absurd hv (by simp)⟩
  · rw [hpe]
    exact validateAndRun_mark_facts schemas topic hdl fns
      (markEvent && fns.isSome) event [.staleCheck, .isProcessedCall eid]
      (fun v => by simp) (fun i => by simp)
  · rw [hpe]
    exact validateAndRun_mark_facts schemas topic hdl fns
      (markEvent && fns.isSome) event [.staleCheck]
      (fun v => by simp) (fun i => by simp)

/-- Witness for C3 at a concrete throwing handler: the exception propagates
and no mark step occurs. -/
theorem processEvent_mark_after_handler_witness :
    (processEvent schemasNat "test" handlerBoom (some fnsFresh) true none
        evGood 0).2 = .error (.thrown "boom") ∧
      ∀ i, Step.markCall i ∉
        (processEvent schemasNat "test" handlerBoom (some fnsFresh) true none
          evGood 0).1 :=
  (processEvent_mark_after_handler schemasNat "test" handlerBoom
      (some fnsFresh) true none evGood 0).2 6 (.thrown "boom")
    (by decide) rfl

/-- Witness for C1 at a concrete confirmed duplicate: validation is not
reached. -/
theorem processEvent_stage_order_witness :
    Step.validate ∉
      (processEvent schemasNat "test" handlerOk (some fnsSeen) true none
        evGood 0).1 :=
  ((processEvent_stage_order schemasNat "test" handlerOk (some fnsSeen) true
      none evGood 0).2.2.2.1 rfl).1

/-- C2: with idempotency active (markEvent set and store supplied) and a
truthy event id that the store reports as already processed, the handler is
never invoked, no re-mark occurs, and the pipeline returns normally — as
the duplicate drop whenever the event was not already dropped as stale. -/
theorem processEvent_duplicate_drop {Raw Typed : Type}
    (schemas : String → Option (Raw → Except String Typed))
    (topic : String) (hdl : Typed → Except Exn Unit)
    (f : EventMarkingFunctions) (m : Option Int)
    (event : CloudEvent Raw) (now : Int) (eid : String)
    (hid : truthyId event.id = some eid)
    (hdup : f.isEventProcessed eid = .ok true) :
    (∀ v, Step.handlerCall v ∉
        (processEvent schemas topic hdl (some f) true m event now).1) ∧
    (∀ i, Step.markCall i ∉
        (processEvent schemas topic hdl (some f) true m event now).1) ∧
    (∃ o, (processEvent schemas topic hdl (some f) true m event now).2 =
        .ok o) ∧
    (shouldDropEvent event m now = false →
      (processEvent schemas topic hdl (some f) true m event now).2 =
        .ok .droppedDuplicate) := by
  rcases processEvent_cases schemas topic hdl (some f) true m event now with
    ⟨hd, hpe⟩ | ⟨hd, ⟨f', eid', hcm, hfns, hti,
      ⟨e', hq, hpe⟩ | ⟨hq, hpe⟩ | ⟨hq, hpe⟩⟩ | ⟨hcond, hpe⟩⟩
  · rw [hpe]
    exact ⟨fun v => by simp, fun i => by simp, ⟨.droppedStale, rfl⟩,
      fun h => absurd hd (by simp [h])⟩
  · injection hfns with h'
    subst h'
    rw [hid] at hti
    injection hti with h'
    subst h'
    rw [hdup] at hq
    exact absurd hq (by simp)
  · rw [hpe]
    exact ⟨fun v => by simp, fun i => by simp, ⟨.droppedDuplicate, rfl⟩,
      fun _ => rfl⟩
  · injection hfns with h'
    subst h'
    rw [hid] at hti
    injection hti with h'
    subst h'
    rw [hdup] at hq
    exact absurd hq (by simp)
  · rcases hcond with hcm | hnone
    · simp at hcm
    · rw [hid] at hnone
      exact absurd hnone (by simp)

/-- Witness for C2 at a concrete already-processed event. -/
theorem processEvent_duplicate_drop_witness :
    (processEvent schemasNat "test" handlerOk (some fnsSeen) true none evGood
        0).2 = .ok .droppedDuplicate :=
  (processEvent_duplicate_drop schemasNat "test" handlerOk fnsSeen none
      evGood 0 "e1" (by decide) rfl).2.2.2 rfl

/-- C5: with idempotency inactive (markEvent false or no store supplied),
the pipeline never calls `isEventProcessed` or `markEventAsProcessed`, and
the handler runs on every delivery that passes the staleness check and
whose payload validates — there is no duplicate suppression, regardless of
what any store would answer. -/
theorem processEvent_no_marking {Raw Typed : Type}
    (schemas : String → Option (Raw → Except String Typed))
    (topic : String) (hdl : Typed → Except Exn Unit)
    (fns : Option EventMarkingFunctions) (markEvent : Bool)
    (m : Option Int) (event : CloudEvent Raw) (now : Int)
    (hoff : markEvent = false ∨ fns = none) :
    (∀ i, Step.isProcessedCall i ∉
        (processEvent schemas topic hdl fns markEvent m event now).1) ∧
    (∀ i, Step.markCall i ∉
        (processEvent schemas topic hdl fns markEvent m event now).1) ∧
    (shouldDropEvent event m now = false →
      ∀ sch v, schemas topic = some sch → sch event.json = .ok v →
        Step.handlerCall v ∈
          (processEvent schemas topic hdl fns markEvent m event now).1) := by
  rcases processEvent_cases schemas topic hdl fns markEvent m event now with
    ⟨hd, hpe⟩ | ⟨hd, ⟨f, eid, hcm, hfns, hti, hcase⟩ | ⟨hcond, hpe⟩⟩
  · rw [hpe]
    exact ⟨fun i => by simp, fun i => by simp,
      fun h => absurd hd (by simp [h])⟩
  · rcases hoff with rfl | rfl
    · simp at hcm
    · simp at hcm
  · rw [hpe]
    refine ⟨fun i => ?_, fun i => ?_, fun h sch v hs hv => ?_⟩
    · rw [validateAndRun_mem_low schemas topic hdl fns
        (markEvent && fns.isSome) event [.staleCheck] _ (by simp [stageIdx])]
      simp
    · rw [validateAndRun_mem_markCall schemas topic hdl fns
        (markEvent && fns.isSome) event [.staleCheck] i]
      rcases hoff with rfl | rfl <;> simp
    · exact (validateAndRun_mem_handlerCall schemas topic hdl fns
        (markEvent && fns.isSome) event [.staleCheck] v).mpr
        (Or.inr ⟨sch, hs, hv⟩)

/-- Witness for C5: the handler runs (with the validated payload) even when
the supplied store claims the event was processed, because markEvent is
false. -/
theorem processEvent_no_marking_witness :
    Step.handlerCall 6 ∈
      (processEvent schemasNat "test" handlerOk (some fnsSeen) false none
        evGood 0).1 :=
  (processEvent_no_marking schemasNat "test" handlerOk (some fnsSeen) false
      none evGood 0 (Or.inl rfl)).2.2 rfl valNat 6 rfl rfl

/-- Validation facts for `validateAndRun` on a known topic (given `pre`
holds no handler step): a validating payload leads to exactly one handler
invocation, carrying the validator's output; a failing payload leads to no
handler invocation and the acknowledged invalid drop carrying the logged
error. -/
theorem validateAndRun_validation_facts {Raw Typed : Type}
    (schemas : String → Option (Raw → Except String Typed))
    (topic : String) (hdl : Typed → Except Exn Unit)
    (fns : Option EventMarkingFunctions) (cm : Bool)
    (event : CloudEvent Raw) (pre : List (Step Typed))
    (hnoh : ∀ v, Step.handlerCall v ∉ pre)
    (sch : Raw → Except String Typed) (hs : schemas topic = some sch) :
    (∀ v, sch event.json = .ok v →
      Step.handlerCall v ∈ (validateAndRun schemas topic hdl fns cm event pre).1 ∧
        ∀ w, Step.handlerCall w ∈
            (validateAndRun schemas topic hdl fns cm event pre).1 → w = v) ∧
    (∀ err, sch event.json = .error err →
      (∀ w, Step.handlerCall w ∉
          (validateAndRun schemas topic hdl fns cm event pre).1) ∧
        (validateAndRun schemas topic hdl fns cm event pre).2 =
          .ok (.droppedInvalid err)) := by
  refine ⟨fun v hval => ⟨?_, fun w hw => ?_⟩,
    fun err herr => ⟨fun w hw => ?_, ?_⟩⟩
  · exact (validateAndRun_mem_handlerCall schemas topic hdl fns cm event pre
      v).mpr (Or.inr ⟨sch, hs, hval⟩)
  · rcases (validateAndRun_mem_handlerCall schemas topic hdl fns cm event pre
        w).mp hw with h | ⟨sch', hs', hw'⟩
    · exact absurd h (hnoh w)
    · rw [hs] at hs'
      injection hs' with h'
      subst h'
      rw [hval] at hw'
      injection hw' with h'
      exact h'.symm
  · rcases (validateAndRun_mem_handlerCall schemas topic hdl fns cm event pre
        w).mp hw with h | ⟨sch', hs', hw'⟩
    · exact absurd h (hnoh w)
    · rw [hs] at hs'
      injection hs' with h'
      subst h'
      rw [herr] at hw'
      exact absurd hw' (by simp)
  · rcases validateAndRun_cases schemas topic hdl fns cm event pre with
      ⟨hs', hv⟩ | ⟨sch', err', hs', hp', hv⟩ |
      ⟨sch', v', e', hs', hp', hh', hv⟩ |
      ⟨sch', v', f, eid, hs', hp', hh', hcm, hti, hfns,
        ⟨e', hm, hv⟩ | ⟨hm, hv⟩⟩ |
      ⟨sch', v', hs', hp', hh', hcond, hv⟩
    · rw [hs] at hs'
      exact absurd hs' (by simp)
    · rw [hv]
      rw [hs] at hs'
      injection hs' with h'
      subst h'
      rw [herr] at hp'
      injection hp' with h'
      subst h'
      rfl
    · rw [hs] at hs'
      injection hs' with h'
      subst h'
      rw [herr] at hp'
      exact absurd hp' (by simp)
    · rw [hs] at hs'
      injection hs' with h'
      subst h'
      rw [herr] at hp'
      exact absurd hp' (by simp)
    · rw [hs] at hs'
      injection hs' with h'
      subst h'
      rw [herr] at hp'
      exact absurd hp' (by simp)
    · rw [hs] at hs'
      injection hs' with h'
      subst h'
      rw [herr] at hp'
      exact absurd hp' (by simp)

/-- C6: for an event that reaches the validation stage of a known topic
(not stale, not a confirmed duplicate), a payload that passes schema
validation leads to the handler being invoked with exactly the validated,
typed value the validator produced (and with no other value); a payload
that fails validation leads to no handler invocation and a normal return
carrying the logged validation error as the acknowledged invalid drop. -/
theorem processEvent_validation {Raw Typed : Type}
    (schemas : String → Option (Raw → Except String Typed))
    (topic : String) (hdl : Typed → Except Exn Unit)
    (fns : Option EventMarkingFunctions) (markEvent : Bool)
    (m : Option Int) (event : CloudEvent Raw) (now : Int)
    (hnotstale : shouldDropEvent event m now = false)
    (hpass : (markEvent && fns.isSome) = false ∨ truthyId event.id = none ∨
      (∃ f eid, fns = some f ∧ truthyId event.id = some eid ∧
        f.isEventProcessed eid = .ok false))
    (sch : Raw → Except String Typed) (hs : schemas topic = some sch) :
    (∀ v, sch event.json = .ok v →
      Step.handlerCall v ∈
          (processEvent schemas topic hdl fns markEvent m event now).1 ∧
        ∀ w, Step.handlerCall w ∈
            (processEvent schemas topic hdl fns markEvent m event now).1 →
          w = v) ∧
    (∀ err, sch event.json = .error err →
      (∀ w, Step.handlerCall w ∉
          (processEvent schemas topic hdl fns markEvent m event now).1) ∧
        (processEvent schemas topic hdl fns markEvent m event now).2 =
          .ok (.droppedInvalid err)) := by
  rcases processEvent_cases schemas topic hdl fns markEvent m event now with
    ⟨hd, hpe⟩ | ⟨hd, ⟨f, eid, hcm, hfns, hti,
      ⟨e', hq, hpe⟩ | ⟨hq, hpe⟩ | ⟨hq, hpe⟩⟩ | ⟨hcond, hpe⟩⟩
  · rw [hd] at hnotstale
    exact absurd hnotstale (by simp)
  · rcases hpass with hpass | hpass | ⟨f', eid', hfns', hti', hq'⟩
    · rw [hcm] at hpass
      exact absurd hpass (by simp)
    · rw [hpass] at hti
      exact absurd hti (by simp)
    · rw [hfns] at hfns'
      injection hfns' with h'
      subst h'
      rw [hti] at hti'
      injection hti' with h'
      subst h'
      rw [hq] at hq'
      exact absurd hq' (by simp)
  · rcases hpass with hpass | hpass | ⟨f', eid', hfns', hti', hq'⟩
    · rw [hcm] at hpass
      exact absurd hpass (by simp)
    · rw [hpass] at hti
      exact absurd hti (by simp)
    · rw [hfns] at hfns'
      injection hfns' with h'
      subst h'
      rw [hti] at hti'
      injection hti' with h'
      subst h'
      rw [hq] at hq'
      exact absurd hq' (by simp)
  · rw [hpe]
    exact validateAndRun_validation_facts schemas topic hdl fns
      (markEvent && fns.isSome) event [.staleCheck, .isProcessedCall eid]
      (fun v => by simp) sch hs
  · rw [hpe]
    exact validateAndRun_validation_facts schemas topic hdl fns
      (markEvent && fns.isSome) event [.staleCheck]
      (fun v => by simp) sch hs

/-- Witness for C6 at a concrete invalid payload: the handler is not
invoked and the pipeline returns the acknowledged invalid drop with the
logged error. -/
theorem processEvent_validation_witness :
    (∀ w, Step.handlerCall w ∉
        (processEvent schemasNat "test" handlerOk none false none evBad
          0).1) ∧
      (processEvent schemasNat "test" handlerOk none false none evBad 0).2 =
        .ok (.droppedInvalid "invalid") :=
  (processEvent_validation schemasNat "test" handlerOk none false none evBad
      0 rfl (Or.inl rfl) valNat rfl).2 "invalid" rfl

/-- C10: rejections of the supplied store operations are not caught by the
pipeline. A rejecting duplicate pre-check propagates as the run's failure
with no handler invocation and no mark call; a rejecting mark call
propagates as the run's failure after the user handler has already been
invoked and completed successfully. -/
theorem processEvent_store_failure {Raw Typed : Type}
    (schemas : String → Option (Raw → Except String Typed))
    (topic : String) (hdl : Typed → Except Exn Unit)
    (f : EventMarkingFunctions) (m : Option Int)
    (event : CloudEvent Raw) (now : Int) (eid : String)
    (hid : truthyId event.id = some eid)
    (hnotstale : shouldDropEvent event m now = false) :
    (∀ e, f.isEventProcessed eid = .error e →
      (processEvent schemas topic hdl (some f) true m event now).2 =
          .error e ∧
        (∀ v, Step.handlerCall v ∉
          (processEvent schemas topic hdl (some f) true m event now).1) ∧
        ∀ i, Step.markCall i ∉
          (processEvent schemas topic hdl (some f) true m event now).1) ∧
    (∀ sch v e, f.isEventProcessed eid = .ok false →
      schemas topic = some sch → sch event.json = .ok v → hdl v = .ok () →
      f.markEventAsProcessed eid = .error e →
      (processEvent schemas topic hdl (some f) true m event now).2 =
          .error e ∧
        Step.handlerCall v ∈
          (processEvent schemas topic hdl (some f) true m event now).1) := by
  rcases processEvent_cases schemas topic hdl (some f) true m event now with
    ⟨hd, hpe⟩ | ⟨hd, ⟨f', eid', hcm, hfns, hti,
      ⟨e', hq, hpe⟩ | ⟨hq, hpe⟩ | ⟨hq, hpe⟩⟩ | ⟨hcond, hpe⟩⟩
  · rw [hd] at hnotstale
    exact absurd hnotstale (by simp)
  · injection hfns with h'
    subst h'
    rw [hid] at hti
    injection hti with h'
    subst h'
    refine ⟨fun e he => ?_, fun sch v e hq' _ _ _ _ => ?_⟩
    · rw [hq] at he
      injection he with h'
      subst h'
      rw [hpe]
      exact ⟨rfl, fun v => by simp, fun i => by simp⟩
    · rw [hq] at hq'
      exact absurd hq' (by simp)
  · injection hfns with h'
    subst h'
    rw [hid] at hti
    injection hti with h'
    subst h'
    refine ⟨fun e he => ?_, fun sch v e hq' _ _ _ _ => ?_⟩
    · rw [hq] at he
      exact absurd he (by simp)
    · rw [hq] at hq'
      exact absurd hq' (by simp)
  · injection hfns with h'
    subst h'
    rw [hid] at hti
    injection hti with h'
    subst h'
    refine ⟨fun e he => ?_, fun sch v e hq' hs hv hh hm => ?_⟩
    · rw [hq] at he
      exact absurd he (by simp)
    · rw [hpe]
      rcases validateAndRun_cases schemas topic hdl (some f)
          (true && (some f).isSome) event
          [.staleCheck, .isProcessedCall eid] with
        ⟨hs', hv'⟩ | ⟨sch', err', hs', hp', hv'⟩ |
        ⟨sch', v', e', hs', hp', hh', hv'⟩ |
        ⟨sch', v', f', eid', hs', hp', hh', hcm', hti', hfns',
          ⟨e', hm', hv'⟩ | ⟨hm', hv'⟩⟩ |
        ⟨sch', v', hs', hp', hh', hcond', hv'⟩
      · rw [hs] at hs'
        exact absurd hs' (by simp)
      · rw [hs] at hs'
        injection hs' with h'
        subst h'
        rw [hv] at hp'
        exact absurd hp' (by simp)
      · rw [hs] at hs'
        injection hs' with h'
        subst h'
        rw [hv] at hp'
        injection hp' with h'
        subst h'
        rw [hh] at hh'
        exact absurd hh' (by simp)
      · rw [hs] at hs'
        injection hs' with h'
        subst h'
        rw [hv] at hp'
        injection hp' with h'
        subst h'
        injection hfns' with h'
        subst h'
        rw [hid] at hti'
        injection hti' with h'
        subst h'
        rw [hm] at hm'
        injection hm' with h'
        subst h'
        rw [hv']
        exact ⟨rfl, by simp⟩
      · rw [hs] at hs'
        injection hs' with h'
        subst h'
        rw [hv] at hp'
        injection hp' with h'
        subst h'
        injection hfns' with h'
        subst h'
        rw [hid] at hti'
        injection hti' with h'
        subst h'
        rw [hm] at hm'
        exact absurd hm' (by simp)
      · rcases hcond' with hcond' | hcond' | hcond'
        · simp at hcond'
        · rw [hid] at hcond'
          exact absurd hcond' (by simp)
        · exact absurd hcond' (by simp)
  · rcases hcond with hcm | hnone
    · simp at hcm
    · rw [hid] at hnone
      exact absurd hnone (by simp)

/-- Witness for C10 at a concrete store whose duplicate pre-check rejects:
the rejection is the pipeline's result. -/
theorem processEvent_store_failure_witness :
    (processEvent schemasNat "test" handlerOk (some fnsCheckFail) true none
        evGood 0).2 = .error (.thrown "store down") :=
  ((processEvent_store_failure schemasNat "test" handlerOk fnsCheckFail none
      evGood 0 "e1" (by decide) rfl).1 (.thrown "store down") rfl).1

/-- For a topic with no schema, `validateAndRun` throws the missing-key
exception of `got` without adding any step. -/
theorem validateAndRun_unknown_topic {Raw Typed : Type}
    (schemas : String → Option (Raw → Except String Typed))
    (topic : String) (hdl : Typed → Except Exn Unit)
    (fns : Option EventMarkingFunctions) (cm : Bool)
    (event : CloudEvent Raw) (pre : List (Step Typed))
    (hs : schemas topic = none) :
    validateAndRun schemas topic hdl fns cm event pre =
      (pre, .error (.missingKey topic)) := by
  rcases validateAndRun_cases schemas topic hdl fns cm event pre with
    ⟨hs', hv⟩ | ⟨sch', err', hs', hp', hv⟩ |
    ⟨sch', v', e', hs', hp', hh', hv⟩ |
    ⟨sch', v', f, eid, hs', hp', hh', hcm, hti, hfns, ⟨e', hm, hv⟩ | ⟨hm, hv⟩⟩ |
    ⟨sch', v', hs', hp', hh', hcond, hv⟩
  · exact hv
  · rw [hs] at hs'
    exact absurd hs' (by simp)
  · rw [hs] at hs'
    exact absurd hs' (by simp)
  · rw [hs] at hs'
    exact absurd hs' (by simp)
  · rw [hs] at hs'
    exact absurd hs' (by simp)
  · rw [hs] at hs'
    exact absurd hs' (by simp)

/-- C8 counterexample: registering a handler for a topic absent from the
registry does not fail at (runtime) registration, and the unknown topic is
surfaced as a per-event outcome at event time — delivering an event to the
registration built for the unknown topic `"missing"` makes the pipeline
throw the missing-key exception from `got` after the staleness stage. -/
theorem createHandler_unknown_topic_cex :
    (createHandler schemasNat none defaultHandlerOptions "missing"
        handlerOk emptyHandlerOptions).run evGood 0 =
      ([Step.staleCheck], .error (.missingKey "missing")) ∧
    schemasNat "missing" = none := ⟨rfl, rfl⟩

/-- C8 (amended): the rejection of unknown topics is static (TypeScript
typing of the registration surface), not a runtime registration-time
check; at event time an event for an unknown topic never reaches
validation or the handler and is never acknowledged as processed or
invalid — when it passes the staleness and duplicate stages it raises the
missing-key exception, a propagated per-event failure. -/
theorem processEvent_unknown_topic {Raw Typed : Type}
    (schemas : String → Option (Raw → Except String Typed))
    (topic : String) (hdl : Typed → Except Exn Unit)
    (fns : Option EventMarkingFunctions) (markEvent : Bool)
    (m : Option Int) (event : CloudEvent Raw) (now : Int)
    (hs : schemas topic = none) :
    Step.validate ∉
        (processEvent schemas topic hdl fns markEvent m event now).1 ∧
    (∀ v, Step.handlerCall v ∉
        (processEvent schemas topic hdl fns markEvent m event now).1) ∧
    (∀ o, (processEvent schemas topic hdl fns markEvent m event now).2 =
        .ok o → o = .droppedStale ∨ o = .droppedDuplicate) ∧
    (shouldDropEvent event m now = false →
      ((markEvent && fns.isSome) = false ∨ truthyId event.id = none ∨
        (∃ f eid, fns = some f ∧ truthyId event.id = some eid ∧
          f.isEventProcessed eid = .ok false)) →
      (processEvent schemas topic hdl fns markEvent m event now).2 =
        .error (.missingKey topic)) := by
  rcases processEvent_cases schemas topic hdl fns markEvent m event now with
    ⟨hd, hpe⟩ | ⟨hd, ⟨f, eid, hcm, hfns, hti,
      ⟨e', hq, hpe⟩ | ⟨hq, hpe⟩ | ⟨hq, hpe⟩⟩ | ⟨hcond, hpe⟩⟩
  · rw [hpe]
    refine ⟨by simp, fun v => by simp, fun o ho => ?_, fun h _ => ?_⟩
    · injection ho with h'
      exact Or.inl h'.symm
    · rw [hd] at h
      exact absurd h (by simp)
  · rw [hpe]
    refine ⟨by simp, fun v => by simp, fun o ho => by simp at ho,
      fun _ hpass => ?_⟩
    rcases hpass with hpass | hpass | ⟨f', eid', hfns', hti', hq'⟩
    · rw [hcm] at hpass
      exact absurd hpass (by simp)
    · rw [hpass] at hti
      exact absurd hti (by simp)
    · rw [hfns] at hfns'
      injection hfns' with h'
      subst h'
      rw [hti] at hti'
      injection hti' with h'
      subst h'
      rw [hq] at hq'
      exact absurd hq' (by simp)
  · rw [hpe]
    refine ⟨by simp, fun v => by simp, fun o ho => ?_, fun _ hpass => ?_⟩
    · injection ho with h'
      exact Or.inr h'.symm
    · rcases hpass with hpass | hpass | ⟨f', eid', hfns', hti', hq'⟩
      · rw [hcm] at hpass
        exact absurd hpass (by simp)
      · rw [hpass] at hti
        exact absurd hti (by simp)
      · rw [hfns] at hfns'
        injection hfns' with h'
        subst h'
        rw [hti] at hti'
        injection hti' with h'
        subst h'
        rw [hq] at hq'
        exact absurd hq' (by simp)
  · rw [hpe, validateAndRun_unknown_topic schemas topic hdl fns
      (markEvent && fns.isSome) event [.staleCheck, .isProcessedCall eid] hs]
    exact ⟨by simp, fun v => by simp, fun o ho => by simp at ho,
      fun _ _ => rfl⟩
  · rw [hpe, validateAndRun_unknown_topic schemas topic hdl fns
      (markEvent && fns.isSome) event [.staleCheck] hs]
    exact ⟨by simp, fun v => by simp, fun o ho => by simp at ho,
      fun _ _ => rfl⟩

/-- Witness for the amended C8 at a concrete unknown topic. -/
theorem processEvent_unknown_topic_witness :
    (processEvent schemasNat "nope" handlerOk none false none evNoId 0).2 =
      .error (.missingKey "nope") :=
  (processEvent_unknown_topic schemasNat "nope" handlerOk none false none
      evNoId 0 rfl).2.2.2 rfl (Or.inl rfl)
